import Mathlib

/-!
# Verification of the IDA-NDS loader core (`src/nds.py`)

A shallow embedding, in Lean 4, of the Nintendo DS ROM / filename-table
codec found in `src/nds.py` of the IDA-NDS repository, together with
theorems settling the specification's claims about it.

Conventions of the embedding:
* Python `bytes` / `bytearray` values are `List Nat` (each element < 256 in
  every reachable state; arithmetic never depends on that bound).
* Python `str` values are `List Char` (the names in play are latin-1, one
  byte per character, so `len` agrees with the encoded length).
* Fallible Python code (code that can raise) is embedded in
  `Except PyError`; the constructor of `PyError` names the Python
  exception class raised at the corresponding source line.
* Python slices `d[a:b]` (with the non-negative indices that occur here)
  clip to the buffer and are embedded as `pySlice`.
-/

/-- The Python exception classes raised by the code under study. -/
inductive PyError where
  /-- `UnboundLocalError`: a function-local variable read before assignment. -/
  | unboundLocal
  /-- `ValueError` -/
  | valueError
  /-- `IndexError` -/
  | indexError
  /-- `struct.error`: `struct.unpack_from` with too short a buffer. -/
  | structError
  /-- `RecursionError`: Python's recursion limit reached. -/
  | recursionError
  /-- `AssertionError` -/
  | assertionError
  deriving DecidableEq

/-- Python `d[a:b]` for `0 ≤ a, b`: the bytes of `d` from index `a` up to
(excluding) index `b`, clipped to the length of `d`; empty when `b ≤ a`. -/
def pySlice (d : List Nat) (a b : Nat) : List Nat :=
  (d.drop a).take (b - a)

/-- A single byte read `d[off]` where the caller has ensured `off` is in
bounds (every use below is under such a guarantee); 0 out of bounds. -/
def u8 (d : List Nat) (off : Nat) : Nat :=
  d.getD off 0

/-- Little-endian 16-bit read at `off` (as `struct.unpack_from('<H', …)`
decodes, bounds being the caller's concern). -/
def u16 (d : List Nat) (off : Nat) : Nat :=
  u8 d off + 0x100 * u8 d (off + 1)

/-- Little-endian 32-bit read at `off` (as `struct.unpack_from('<I', …)`
decodes, bounds being the caller's concern). -/
def u32 (d : List Nat) (off : Nat) : Nat :=
  u8 d off + 0x100 * u8 d (off + 1) + 0x10000 * u8 d (off + 2) +
    0x1000000 * u8 d (off + 3)

/-- `struct.unpack_from('B', d, off)`: raises `struct.error` when the
buffer ends before `off + 1`. -/
def unpackB (d : List Nat) (off : Nat) : Except PyError Nat :=
  if off + 1 ≤ d.length then Except.ok (u8 d off) else Except.error PyError.structError

/-- `struct.unpack_from('<H', d, off)`. -/
def unpackH (d : List Nat) (off : Nat) : Except PyError Nat :=
  if off + 2 ≤ d.length then Except.ok (u16 d off) else Except.error PyError.structError

/-- `struct.unpack_from('<IH', d, off)` (the folder-table read of `load`). -/
def unpackIH (d : List Nat) (off : Nat) : Except PyError (Nat × Nat) :=
  if off + 6 ≤ d.length then Except.ok (u32 d off, u16 d (off + 4))
  else Except.error PyError.structError

/-- Python `bytes.rstrip(b'\0')`: drop trailing zero bytes. -/
def rstripZero (l : List Nat) : List Nat :=
  (l.reverse.dropWhile (· = 0)).reverse

/-- `Folder` (src/nds.py lines 36-50): a node of the filename tree.
`folders` is the ordered list of `(name, subfolder)` pairs, `files` the
ordered list of file names, `firstID` the file ID of the first file listed
directly in this folder. -/
inductive Folder where
  | mk (folders : List (List Char × Folder)) (files : List (List Char)) (firstID : Nat)

/-- The `folders` attribute. -/
def Folder.folders : Folder → List (List Char × Folder)
  | .mk fs _ _ => fs

/-- The `files` attribute. -/
def Folder.files : Folder → List (List Char)
  | .mk _ fl _ => fl

/-- The `firstID` attribute. -/
def Folder.firstID : Folder → Nat
  | .mk _ _ i => i

/-- Python `path.split('/')` on a `str` given as a `List Char`: the groups
of characters between occurrences of `'/'`.  Like Python's `str.split` with
an explicit separator it never returns an empty list (`"".split('/') ==
['']`). -/
def splitSlash : List Char → List (List Char)
  | [] => [[]]
  | c :: rest =>
    if c = '/' then [] :: splitSlash rest
    else
      match splitSlash rest with
      | [] => [[c]]   -- unreachable: splitSlash never returns []
      | g :: gs => (c :: g) :: gs

/-- The loop `while not pathList[0]: pathList = pathList[1:]` of
`Folder.idOf` / `Folder.subfolder` (lines 120-122 and 150-152): drop leading
empty path components; indexing the emptied list raises `IndexError`.
(The trailing-strip loop `while not pathList[-1]: …` is this same loop run
on the reversed list.) -/
def stripEmpties : List (List Char) → Except PyError (List (List Char))
  | [] => Except.error PyError.indexError
  | g :: gs => if g = [] then stripEmpties gs else Except.ok (g :: gs)

/-- Both strip loops of `idOf` / `subfolder` in source order: first trailing
empty components are removed (possibly raising `IndexError`), then leading
ones. -/
def stripPath (l : List (List Char)) : Except PyError (List (List Char)) := do
  let afterTrailing ← (stripEmpties l.reverse).map List.reverse
  stripEmpties afterTrailing

/-- The linear scan `for subfolderName, subfolder in searchFolder.folders`
(first match wins). -/
def findSub (p : List Char) : List (List Char × Folder) → Option Folder
  | [] => none
  | (n, sub) :: rest => if n = p then some sub else findSub p rest

/-- `findInFolder` of `Folder.idOf` (lines 97-118): on a one-component path
look the name up in `files` (ID = `firstID` + position), otherwise descend
into the first matching subfolder.  Callers always pass a non-empty
component list; the `[]` case is unreachable. -/
def findId : List (List Char) → Folder → Option Nat
  | [], _ => none
  | [p], f =>
    if f.files.contains p then some (f.firstID + f.files.indexOf p) else none
  | p :: ps, f =>
    match findSub p f.folders with
    | some sub => findId ps sub
    | none => none

/-- `findInFolder` of `Folder.subfolder` (lines 133-148): descend through
the first matching subfolder name at each level, returning the `Folder`
reached on the last component.  Callers always pass a non-empty list. -/
def findSubfolder : List (List Char) → Folder → Option Folder
  | [], _ => none
  | p :: ps, f =>
    match findSub p f.folders with
    | some sub => if ps.isEmpty then some sub else findSubfolder ps sub
    | none => none

/-- `Folder.idOf` (lines 91-123): split the path on `'/'`, strip leading and
trailing empty components (raising `IndexError` when nothing remains, as the
source's indexing loops do), then resolve. -/
def idOf (f : Folder) (path : List Char) : Except PyError (Option Nat) := do
  let parts ← stripPath (splitSlash path)
  pure (findId parts f)

/-- `Folder.subfolder` (lines 126-153). -/
def subfolder (f : Folder) (path : List Char) : Except PyError (Option Folder) := do
  let parts ← stripPath (splitSlash path)
  pure (findSubfolder parts f)

/-- Python's byte-to-`str` map for `.decode('latin-1')`: one character per
byte, code point = byte value. -/
def latin1 (l : List Nat) : List Char :=
  l.map Char.ofNat

/-- The `while True` entries loop of `loadFolder` (lines 246-263), with the
decoding of a subfolder ID abstracted as `loadSub` (the recursive
`loadFolder` call the source makes there): read a control byte
(`struct.error` past the buffer), stop at 0; otherwise the low 7 bits are
the name length and the high bit flags a folder entry, whose 2-byte
subfolder ID follows the name.  The `steps` count only bounds the loop for
Lean: the source loop needs no bound because its offset strictly increases,
so at most `fnt.length + 1` control bytes can be read before
`struct.error`; callers start `steps` above that and the 0 case is
unreachable. -/
def readEntries (fnt : List Nat) (loadSub : Nat → Except PyError Folder) :
    Nat → Nat → Except PyError (List (List Char × Folder) × List (List Char))
  | 0, _ => Except.error PyError.recursionError
  | steps + 1, off => do
    let control ← unpackB fnt off
    if control = 0 then
      pure ([], [])
    else
      let len := control % 0x80
      let name := latin1 (pySlice fnt (off + 1) (off + 1 + len))
      if 0x80 ≤ control then do
        let subFolderID ← unpackH fnt (off + 1 + len)
        let sub ← loadSub subFolderID
        let (folders, files) ← readEntries fnt loadSub steps (off + 1 + len + 2)
        pure ((name, sub) :: folders, files)
      else do
        let (folders, files) ← readEntries fnt loadSub steps (off + 1 + len)
        pure (folders, name :: files)

/-- `loadFolder` of `load` (src/nds.py lines 231-265): read the folder-table
slot `8 * (folderId & 0xFFF)` (a `<IH` unpack, which raises `struct.error`
past the end of the buffer), then walk the entries table, loading subfolder
entries recursively.  The subfolder recursion of the source is unbounded on
malformed input, where Python would hit its recursion limit; `fuel` models
that limit, and exhausting it is the `RecursionError` Python would
raise. -/
def loadFolder (fnt : List Nat) : Nat → Nat → Except PyError Folder
  | 0, _ => Except.error PyError.recursionError
  | fuel + 1, folderId => do
    let (entriesTableOff, fileID) ← unpackIH fnt (8 * (folderId % 0x1000))
    let (folders, files) ←
      readEntries fnt (fun subFolderID => loadFolder fnt fuel subFolderID)
        (fnt.length + 1) entriesTableOff
    pure (Folder.mk folders files fileID)

/-- Python's default recursion limit, the bound on `loadFolder`'s
self-reference depth. -/
def pyRecursionLimit : Nat := 1000

/-- `load` (src/nds.py lines 226-268): decode a filename table, starting at
the root folder ID 0xF000. -/
def load (fnt : List Nat) : Except PyError Folder :=
  loadFolder fnt pyRecursionLimit 0xF000

mutual

/-- `countFoldersIn` of `save` (lines 339-343): the total number of folders
in a tree, the one itself included. -/
def countFoldersIn : Folder → Nat
  | .mk fs _ _ => countFoldersInList fs + 1

/-- The `for _, f in folder.folders` loop of `countFoldersIn`. -/
def countFoldersInList : List (List Char × Folder) → Nat
  | [] => 0
  | (_, f) :: rest => countFoldersIn f + countFoldersInList rest

end

/-- `parseFolder` of `save` (src/nds.py lines 291-336).  Its first statement
is `folderID = nextFolderID` (line 298); because `nextFolderID += 1` on line
299 assigns the name inside `parseFolder` and the function declares it
neither `nonlocal` nor `global`, Python scoping makes `nextFolderID` a local
variable of `parseFolder`, unbound when line 298 reads it.  Every call
therefore raises `UnboundLocalError`, and the rest of the body (the name
length checks, the entries table and the recursion of lines 300-336) is
unreachable, so it is not modelled. -/
def parseFolder (_d : Folder) (_parentID : Nat) : Except PyError Nat :=
  Except.error PyError.unboundLocal

/-- `save` (src/nds.py lines 271-365): compute the root's notional parent ID
(the total folder count) and encode the tree through `parseFolder`.  Since
`parseFolder` raises on every call, the root-ID assertion of line 348 and
the folder-table assembly of lines 350-365 are unreachable and are not
modelled (the value of the `ok` branch below is arbitrary). -/
def save (root : Folder) : Except PyError (List Nat) :=
  match parseFolder root (countFoldersIn root) with
  | Except.error e => Except.error e
  | Except.ok _rootId => Except.error PyError.assertionError

/-! ## The ROM container (`NintendoDSRom._initFromData`, lines 453-605) -/

/-- Lines 460-463: a buffer shorter than 0x200 bytes is zero-extended to
exactly 0x200 bytes before any header field is read. -/
def padTo200 (data : List Nat) : List Nat :=
  if data.length < 0x200 then data ++ List.replicate (0x200 - data.length) 0 else data

/-- The FNT region `data[fntOffset : fntOffset+fntLen]`, the offset/length
pair being the header words at 0x40/0x44 (lines 514-515 and 561). -/
def fntRegion (d : List Nat) : List Nat :=
  pySlice d (u32 d 0x40) (u32 d 0x40 + u32 d 0x44)

/-- The FAT region, offset/length at 0x48/0x4C (lines 516-517 and 562). -/
def fatRegion (d : List Nat) : List Nat :=
  pySlice d (u32 d 0x48) (u32 d 0x48 + u32 d 0x4C)

/-- The claim's own description of the RSA-signature resolution, written
from its words for comparison with `rsaSignatureOf` (the code): use the
4-byte little-endian pointer at fixed offset 0x1000 when the buffer is at
least 0x1004 bytes long and that pointer is nonzero; otherwise use the
header's ROM-size-or-signature-offset field when it is a usable (nonzero)
offset the buffer extends past; when neither applies the signature is
empty, and otherwise it is at most 0x88 bytes read from the resolved
offset, clipped to the buffer length. -/
def rsaSignatureSpec (d : List Nat) : List Nat :=
  if 0x1004 ≤ d.length ∧ u32 d 0x1000 ≠ 0 then
    pySlice d (u32 d 0x1000) (min d.length (u32 d 0x1000 + 0x88))
  else if u32 d 0x80 ≠ 0 ∧ u32 d 0x80 < d.length then
    pySlice d (u32 d 0x80) (min d.length (u32 d 0x80 + 0x88))
  else []

/-- Lines 549-556: the RSA-signature read.  `realSigOffset` starts 0, is
overwritten by the little-endian word at 0x1000 when the buffer has one,
falls back to the header's `romSizeOrRsaSigOffset` (the word at 0x80) when
still falsy and the buffer is longer than that value, and when finally
nonzero selects the slice `data[realSigOffset : min(len(data),
realSigOffset + 0x88)]`. -/
def rsaSignatureOf (d : List Nat) : List Nat :=
  let s1 := if 0x1004 ≤ d.length then u32 d 0x1000 else 0
  let s2 := if s1 = 0 ∧ u32 d 0x80 < d.length then u32 d 0x80 else s1
  if s2 ≠ 0 then pySlice d s2 (min d.length (s2 + 0x88)) else []

/-- The 4-byte marker `b'\x21\x06\xC0\xDE'` of the post-ARM9 records. -/
def postDataMagic : List Nat := [0x21, 0x06, 0xC0, 0xDE]

/-- Lines 581-587: the post-ARM9 scan.  While the four bytes at the cursor
equal the marker, append the 12-byte record there and advance by 12; stop
at the first position whose next four bytes do not match (a slice that runs
past the buffer is shorter than four bytes and so never matches). -/
def scanPostData (d : List Nat) (off : Nat) : List Nat :=
  if h : pySlice d off (off + 4) = postDataMagic then
    pySlice d off (off + 12) ++ scanPostData d (off + 12)
  else []
termination_by d.length - off
decreasing_by
  have hl := congrArg List.length h
  simp only [pySlice, List.length_take, List.length_drop, postDataMagic,
    List.length_cons, List.length_nil] at hl
  omega

/-- One `<II` FAT record's start offset: the word at `8 * i` (line 601). -/
def fatStart (fat : List Nat) (i : Nat) : Nat := u32 fat (8 * i)

/-- One FAT record's end offset: the word at `8 * i + 4`. -/
def fatEnd (fat : List Nat) (i : Nat) : Nat := u32 fat (8 * i + 4)

/-- The number of FAT records, `len(fat) // 8` (line 600). -/
def fatEntryCount (fat : List Nat) : Nat := fat.length / 8

/-- Line 602: the decoded file list; the file of record `i` is the
half-open slice `data[startOffset:endOffset]`. -/
def filesOf (d fat : List Nat) : List (List Nat) :=
  (List.range (fatEntryCount fat)).map fun i => pySlice d (fatStart fat i) (fatEnd fat i)

/-- Python `dict.__setitem__` on an association list kept in insertion
order: overwrite the entry with an equal key, else append. -/
def dictInsert (ps : List (Nat × Nat)) (k v : Nat) : List (Nat × Nat) :=
  if k ∈ ps.map Prod.fst then
    ps.map fun p => if p.1 = k then (k, v) else p
  else ps ++ [(k, v)]

/-- Python `dict.__getitem__`; every use below looks up a key of the dict,
so the default is never returned. -/
def dictGet (ps : List (Nat × Nat)) (k : Nat) : Nat :=
  ((ps.find? fun p => p.1 = k).map Prod.snd).getD 0

/-- The `for i in range(len(fat) // 8)` loop of lines 600-603 building
`offset2Id`: `k` entries remain, `i` is the current record index. -/
def offset2IdAux (fat : List Nat) : Nat → Nat → List (Nat × Nat) → List (Nat × Nat)
  | 0, _, d => d
  | k + 1, i, d => offset2IdAux fat k (i + 1) (dictInsert d (fatStart fat i) i)

/-- The finished `offset2Id` dict: start offset ↦ file ID. -/
def offset2IdOf (fat : List Nat) : List (Nat × Nat) :=
  offset2IdAux fat (fatEntryCount fat) 0 []

/-- Lines 604-605: `for off in sorted(offset2Id): sortedFileIds.append(
offset2Id[off])`.  `sorted` on the (distinct) integer keys of a dict is
their ascending enumeration, embedded with `List.insertionSort`. -/
def sortedFileIdsOf (fat : List Nat) : List Nat :=
  (((offset2IdOf fat).map Prod.fst).insertionSort (· ≤ ·)).map
    (dictGet (offset2IdOf fat))

/-- The (start offset, file ID) pairs of the FAT records `i, i+1, …,
i+k-1`, in record order: what the `offset2Id` loop appends when no start
offset repeats.  A proof-side restatement compared with `offset2IdOf`
below. -/
def fatPairs (fat : List Nat) : Nat → Nat → List (Nat × Nat)
  | 0, _ => []
  | k + 1, i => (fatStart fat i, i) :: fatPairs fat k (i + 1)

/-- `ICON_BANNER_LEN` (line 371). -/
def ICON_BANNER_LEN : Nat := 0x840

/-- Lines 567-571: the icon/banner blob — the `ICON_BANNER_LEN`-byte slice
at the header's word 0x68 when that offset is nonzero, empty otherwise. -/
def iconBannerOf (d : List Nat) : List Nat :=
  if u32 d 0x68 ≠ 0 then pySlice d (u32 d 0x68) (u32 d 0x68 + ICON_BANNER_LEN)
  else []

/-- Lines 572-576: the debug ROM — read at the header's offset word 0x160
with the length word 0x164, only when the offset is nonzero. -/
def debugRomOf (d : List Nat) : List Nat :=
  if u32 d 0x160 ≠ 0 then pySlice d (u32 d 0x160) (u32 d 0x160 + u32 d 0x164)
  else []

/-- The attributes `_initFromData` leaves on a `NintendoDSRom` (the
transient `headerOffset` read cursor is not state of the decoded ROM). -/
structure Rom where
  name : List Nat
  idCode : List Nat
  developerCode : List Nat
  unitCode : Nat
  encryptionSeedSelect : Nat
  deviceCapacity : Nat
  pad015 : Nat
  pad016 : Nat
  pad017 : Nat
  pad018 : Nat
  pad019 : Nat
  pad01A : Nat
  pad01B : Nat
  pad01C : Nat
  region : Nat
  version : Nat
  autostart : Nat
  arm9Offset : Nat
  arm9EntryAddress : Nat
  arm9RamAddress : Nat
  arm9Len : Nat
  arm7Offset : Nat
  arm7EntryAddress : Nat
  arm7RamAddress : Nat
  arm7Len : Nat
  normalCardControlRegisterSettings : Nat
  secureCardControlRegisterSettings : Nat
  secureAreaChecksum : Nat
  secureTransferDelay : Nat
  arm9CodeSettingsPointerAddress : Nat
  arm7CodeSettingsPointerAddress : Nat
  secureAreaDisable : List Nat
  romSizeOrRsaSigOffset : Nat
  pad088 : List Nat
  nintendoLogo : List Nat
  debugRomAddress : Nat
  pad16C : List Nat
  pad200 : List Nat
  rsaSignature : List Nat
  arm9 : List Nat
  arm9PostData : List Nat
  arm7 : List Nat
  arm9OverlayTable : List Nat
  arm7OverlayTable : List Nat
  iconBanner : List Nat
  debugRom : List Nat
  filenames : Folder
  files : List (List Nat)
  sortedFileIds : List Nat

/-- The ROM `_initFromData` builds once the filename tree is known, every
field read at the byte offset the source's sequential cursor reaches (the
offsets the asserts of lines 485-545 record).  `d` is the already padded
buffer. -/
def buildRom (d : List Nat) (filenames : Folder) : Rom where
  name := rstripZero (pySlice d 0 12)
  idCode := pySlice d 0x0C 0x10
  developerCode := pySlice d 0x10 0x12
  unitCode := u8 d 0x12
  encryptionSeedSelect := u8 d 0x13
  deviceCapacity := u8 d 0x14
  pad015 := u8 d 0x15
  pad016 := u8 d 0x16
  pad017 := u8 d 0x17
  pad018 := u8 d 0x18
  pad019 := u8 d 0x19
  pad01A := u8 d 0x1A
  pad01B := u8 d 0x1B
  pad01C := u8 d 0x1C
  region := u8 d 0x1D
  version := u8 d 0x1E
  autostart := u8 d 0x1F
  arm9Offset := u32 d 0x20
  arm9EntryAddress := u32 d 0x24
  arm9RamAddress := u32 d 0x28
  arm9Len := u32 d 0x2C
  arm7Offset := u32 d 0x30
  arm7EntryAddress := u32 d 0x34
  arm7RamAddress := u32 d 0x38
  arm7Len := u32 d 0x3C
  normalCardControlRegisterSettings := u32 d 0x60
  secureCardControlRegisterSettings := u32 d 0x64
  secureAreaChecksum := u16 d 0x6C
  secureTransferDelay := u16 d 0x6E
  arm9CodeSettingsPointerAddress := u32 d 0x70
  arm7CodeSettingsPointerAddress := u32 d 0x74
  secureAreaDisable := pySlice d 0x78 0x80
  romSizeOrRsaSigOffset := u32 d 0x80
  pad088 := pySlice d 0x88 0xC0
  nintendoLogo := pySlice d 0xC0 0x15C
  debugRomAddress := u32 d 0x168
  pad16C := pySlice d 0x16C 0x200
  pad200 := pySlice d 0x200 (min (u32 d 0x20) d.length)
  rsaSignature := rsaSignatureOf d
  arm9 := pySlice d (u32 d 0x20) (u32 d 0x20 + u32 d 0x2C)
  arm9PostData := scanPostData d (u32 d 0x20 + u32 d 0x2C)
  arm7 := pySlice d (u32 d 0x30) (u32 d 0x30 + u32 d 0x3C)
  arm9OverlayTable := pySlice d (u32 d 0x50) (u32 d 0x50 + u32 d 0x54)
  arm7OverlayTable := pySlice d (u32 d 0x58) (u32 d 0x58 + u32 d 0x5C)
  iconBanner := iconBannerOf d
  debugRom := debugRomOf d
  filenames := filenames
  files := if fatRegion d = [] then [] else filesOf d (fatRegion d)
  sortedFileIds := if fatRegion d = [] then [] else sortedFileIdsOf (fatRegion d)

/-- `NintendoDSRom._initFromData` (lines 453-605): pad the buffer, read the
header fields and derived regions (all total), and decode the filename
table — the one step that can raise — only when the FNT region is non-empty
(lines 590-593).  An exception aborts construction of the whole object. -/
def initFromData (data : List Nat) : Except PyError Rom :=
  match (if fntRegion (padTo200 data) = [] then Except.ok (Folder.mk [] [] 0)
         else load (fntRegion (padTo200 data))) with
  | Except.error e => Except.error e
  | Except.ok filenames => Except.ok (buildRom (padTo200 data) filenames)

/-- Python `l[i]` on a list with a non-negative index: `IndexError` out of
range. -/
def pyIndex (l : List (List Nat)) (i : Nat) : Except PyError (List Nat) :=
  match l.get? i with
  | some x => Except.ok x
  | none => Except.error PyError.indexError

/-- `NintendoDSRom.getFileByName` (lines 654-662): resolve the path with
`Folder.idOf`; `None` becomes a `ValueError`, otherwise return
`self.files[fid]`. -/
def getFileByName (rom : Rom) (filename : List Char) : Except PyError (List Nat) :=
  match idOf rom.filenames filename with
  | Except.error e => Except.error e
  | Except.ok none => Except.error PyError.valueError
  | Except.ok (some fid) => pyIndex rom.files fid

/-- `NintendoDSRom.setFileByName` (lines 665-673): resolve as above and
assign `self.files[fid] = data` (an `IndexError` when `fid` is out of
range, as for Python list assignment). -/
def setFileByName (rom : Rom) (filename : List Char) (data : List Nat) :
    Except PyError Rom :=
  match idOf rom.filenames filename with
  | Except.error e => Except.error e
  | Except.ok none => Except.error PyError.valueError
  | Except.ok (some fid) =>
    if fid < rom.files.length then Except.ok { rom with files := rom.files.set fid data }
    else Except.error PyError.indexError

/-- A concrete FAT: three 8-byte records with start offsets 100, 50 and
200 (end offsets 110, 60 and 210), for exercising the FAT decode at a
concrete input. -/
def sampleFat : List Nat :=
  [100, 0, 0, 0, 110, 0, 0, 0, 50, 0, 0, 0, 60, 0, 0, 0, 200, 0, 0, 0, 210, 0, 0, 0]

/-- A concrete ROM state (one file, named `a`, ID 0, contents `[1, 2, 3]`)
used to exercise the path-based accessors at a concrete input. -/
def sampleRom : Rom where
  name := []
  idCode := []
  developerCode := []
  unitCode := 0
  encryptionSeedSelect := 0
  deviceCapacity := 0
  pad015 := 0
  pad016 := 0
  pad017 := 0
  pad018 := 0
  pad019 := 0
  pad01A := 0
  pad01B := 0
  pad01C := 0
  region := 0
  version := 0
  autostart := 0
  arm9Offset := 0
  arm9EntryAddress := 0
  arm9RamAddress := 0
  arm9Len := 0
  arm7Offset := 0
  arm7EntryAddress := 0
  arm7RamAddress := 0
  arm7Len := 0
  normalCardControlRegisterSettings := 0
  secureCardControlRegisterSettings := 0
  secureAreaChecksum := 0
  secureTransferDelay := 0
  arm9CodeSettingsPointerAddress := 0
  arm7CodeSettingsPointerAddress := 0
  secureAreaDisable := []
  romSizeOrRsaSigOffset := 0
  pad088 := []
  nintendoLogo := []
  debugRomAddress := 0
  pad16C := []
  pad200 := []
  rsaSignature := []
  arm9 := []
  arm9PostData := []
  arm7 := []
  arm9OverlayTable := []
  arm7OverlayTable := []
  iconBanner := []
  debugRom := []
  filenames := Folder.mk [] [['a']] 0
  files := [[1, 2, 3]]
  sortedFileIds := [0]

/-! ## Theorems -/

/-- C1 (round-trip): refuted by the code as shipped.  `save` raises
`UnboundLocalError` on every call — `parseFolder`'s `nextFolderID += 1`
makes `nextFolderID` an unbound local at its first read — so
`load(save(tree))` never yields a tree at all, here shown on a root folder
holding the single well-formed file name `a`. -/
theorem c1_save_raises_on_roundtrip_input :
    save (Folder.mk [] [['a']] 0) = Except.error PyError.unboundLocal := rfl

/-- C2 (root sentinel): refuted by the code as shipped.  For every tree
shape, `save` raises `UnboundLocalError` before assigning any folder ID, so
no call ever assigns 0xF000 to the root or reaches the root-ID assertion of
line 348. -/
theorem c2_save_raises_before_root_assignment (root : Folder) :
    save root = Except.error PyError.unboundLocal := rfl

/-- C3 (name-length limit): refuted by the code as shipped.  A folder with
a 128-character file name makes `save` raise `UnboundLocalError`, not the
`ValueError` capacity error of line 307, and a 127-character name raises
the same error instead of encoding: the length check is unreachable. -/
theorem c3_length_check_unreachable :
    save (Folder.mk [] [List.replicate 128 'a'] 0) = Except.error PyError.unboundLocal
    ∧ save (Folder.mk [] [List.replicate 127 'a'] 0) = Except.error PyError.unboundLocal :=
  ⟨rfl, rfl⟩

/-- C4, counterexample: `Folder.idOf` does raise.  On the path `"/"` the
component list collapses to empty and the strip loop's `pathList[-1]`
raises `IndexError` (likewise for the empty path), against the claim that
lookups never raise. -/
theorem c4_counterexample :
    idOf (Folder.mk [] [] 0) ['/'] = Except.error PyError.indexError := rfl

/-- C5, counterexample: a 0x48-byte buffer (shorter than 0x200) whose
padded header declares an FNT of offset 0 and length 1 makes decoding fail:
`load` unpacks a 6-byte folder-table slot from a 1-byte table and raises
`struct.error`.  Decoding short buffers is therefore not failure-free in
general. -/
theorem c5_counterexample :
    (List.replicate 0x44 0 ++ [1, 0, 0, 0]).length < 0x200
    ∧ initFromData (List.replicate 0x44 0 ++ [1, 0, 0, 0]) =
        Except.error PyError.structError :=
  ⟨by decide, rfl⟩

/-! ### Path-lookup lemmas (for C4) -/

theorem splitSlash_ne_nil : ∀ p : List Char, splitSlash p ≠ []
  | [] => by simp [splitSlash]
  | c :: rest => by
    rw [splitSlash]
    split
    · simp
    · split <;> simp

theorem splitSlash_cons_slash (p : List Char) :
    splitSlash ('/' :: p) = [] :: splitSlash p := by
  rw [splitSlash]
  simp

theorem splitSlash_append_slash (p : List Char) :
    splitSlash (p ++ ['/']) = splitSlash p ++ [[]] := by
  induction p with
  | nil => rfl
  | cons c rest ih =>
    obtain ⟨g, gs, hgg⟩ : ∃ g gs, splitSlash rest = g :: gs := by
      cases h : splitSlash rest with
      | nil => exact absurd h (splitSlash_ne_nil rest)
      | cons g gs => exact ⟨g, gs, rfl⟩
    by_cases hc : c = '/'
    · subst hc
      rw [List.cons_append, splitSlash_cons_slash, splitSlash_cons_slash, ih,
        List.cons_append]
    · rw [List.cons_append, splitSlash, if_neg hc, splitSlash, if_neg hc, ih, hgg,
        List.cons_append]
      simp

theorem splitSlash_has_nonempty {p : List Char} {c : Char} (hc : c ∈ p)
    (hcs : c ≠ '/') : ∃ g ∈ splitSlash p, g ≠ [] := by
  induction p with
  | nil => cases hc
  | cons x rest ih =>
    by_cases hx : x = '/'
    · subst hx
      rcases List.mem_cons.mp hc with h | h
      · exact absurd h hcs
      · obtain ⟨g, hg, hgne⟩ := ih h
        exact ⟨g, by rw [splitSlash_cons_slash]; exact List.mem_cons_of_mem _ hg, hgne⟩
    · obtain ⟨g0, gs0, hgg⟩ : ∃ g0 gs0, splitSlash rest = g0 :: gs0 := by
        cases h : splitSlash rest with
        | nil => exact absurd h (splitSlash_ne_nil rest)
        | cons g0 gs0 => exact ⟨g0, gs0, rfl⟩
      refine ⟨x :: g0, ?_, by simp⟩
      rw [splitSlash, if_neg hx, hgg]
      exact List.mem_cons_self _ _

theorem splitSlash_all_empty {p : List Char} (h : ∀ c ∈ p, c = '/') :
    ∀ g ∈ splitSlash p, g = [] := by
  induction p with
  | nil => simp [splitSlash]
  | cons x rest ih =>
    have hx : x = '/' := h x (by simp)
    subst hx
    rw [splitSlash_cons_slash]
    intro g hg
    rcases List.mem_cons.mp hg with hgg | hgg
    · exact hgg
    · exact ih (fun c hc => h c (by simp [hc])) g hgg

theorem stripEmpties_error_of_all_empty {l : List (List Char)}
    (h : ∀ g ∈ l, g = []) : stripEmpties l = Except.error PyError.indexError := by
  induction l with
  | nil => rfl
  | cons g gs ih =>
    rw [stripEmpties, if_pos (h g (by simp))]
    exact ih fun x hx => h x (by simp [hx])

theorem all_empty_of_stripEmpties_error {l : List (List Char)} {e : PyError}
    (h : stripEmpties l = Except.error e) : ∀ g ∈ l, g = [] := by
  induction l with
  | nil => simp
  | cons x xs ih =>
    by_cases hx : x = []
    · rw [stripEmpties, if_pos hx] at h
      intro g hgmem
      rcases List.mem_cons.mp hgmem with hgx | hgx
      · exact hgx.trans hx
      · exact ih h g hgx
    · rw [stripEmpties, if_neg hx] at h
      cases h

theorem stripEmpties_error_eq {l : List (List Char)} {e : PyError}
    (h : stripEmpties l = Except.error e) : e = PyError.indexError := by
  induction l with
  | nil => cases h; rfl
  | cons x xs ih =>
    by_cases hx : x = []
    · rw [stripEmpties, if_pos hx] at h; exact ih h
    · rw [stripEmpties, if_neg hx] at h; cases h

theorem stripEmpties_ok_of_mem {l : List (List Char)} {g : List Char}
    (hg : g ∈ l) (hne : g ≠ []) : ∃ r, stripEmpties l = Except.ok r := by
  induction l with
  | nil => cases hg
  | cons x xs ih =>
    by_cases hx : x = []
    · rw [stripEmpties, if_pos hx]
      rcases List.mem_cons.mp hg with h | h
      · exact absurd (h.trans hx) hne
      · exact ih h
    · exact ⟨x :: xs, by rw [stripEmpties, if_neg hx]⟩

theorem stripEmpties_ok_shape {l r : List (List Char)}
    (h : stripEmpties l = Except.ok r) : ∃ g gs, r = g :: gs ∧ g ≠ [] := by
  induction l with
  | nil => cases h
  | cons x xs ih =>
    by_cases hx : x = []
    · rw [stripEmpties, if_pos hx] at h; exact ih h
    · rw [stripEmpties, if_neg hx] at h
      cases h
      exact ⟨x, xs, rfl, hx⟩

theorem stripEmpties_append_ok {l ys : List (List Char)} {g : List Char}
    {gs : List (List Char)} (h : stripEmpties l = Except.ok (g :: gs)) :
    stripEmpties (l ++ ys) = Except.ok (g :: (gs ++ ys)) := by
  induction l with
  | nil => cases h
  | cons x xs ih =>
    by_cases hx : x = []
    · rw [stripEmpties, if_pos hx] at h
      rw [List.cons_append, stripEmpties, if_pos hx]
      exact ih h
    · rw [stripEmpties, if_neg hx] at h
      rw [List.cons_append, stripEmpties, if_neg hx]
      injection h with h1
      injection h1 with hg hgs
      subst hg; subst hgs
      rfl

theorem stripPath_def (l : List (List Char)) :
    stripPath l = match stripEmpties l.reverse with
      | Except.error e => Except.error e
      | Except.ok r => stripEmpties r.reverse := by
  unfold stripPath
  cases h : stripEmpties l.reverse <;> rfl

theorem idOf_def (f : Folder) (path : List Char) :
    idOf f path = match stripPath (splitSlash path) with
      | Except.error e => Except.error e
      | Except.ok parts => Except.ok (findId parts f) := by
  unfold idOf
  cases h : stripPath (splitSlash path) <;> rfl

theorem subfolder_def (f : Folder) (path : List Char) :
    subfolder f path = match stripPath (splitSlash path) with
      | Except.error e => Except.error e
      | Except.ok parts => Except.ok (findSubfolder parts f) := by
  unfold subfolder
  cases h : stripPath (splitSlash path) <;> rfl

theorem stripPath_cons_empty (l : List (List Char)) :
    stripPath ([] :: l) = stripPath l := by
  rw [stripPath_def, stripPath_def]
  have hrev : ([] :: l).reverse = l.reverse ++ ([[]] : List (List Char)) := by simp
  rw [hrev]
  cases h : stripEmpties l.reverse with
  | error e =>
    have he := stripEmpties_error_eq h
    subst he
    have hall := all_empty_of_stripEmpties_error h
    have h2 : stripEmpties (l.reverse ++ [[]]) = Except.error PyError.indexError :=
      stripEmpties_error_of_all_empty fun g hg => by
        rcases List.mem_append.mp hg with h1 | h1
        · exact hall g h1
        · simpa using h1
    rw [h2]
  | ok r =>
    obtain ⟨g, gs, rfl, hgne⟩ := stripEmpties_ok_shape h
    rw [stripEmpties_append_ok h]
    show stripEmpties (g :: (gs ++ [[]])).reverse = stripEmpties (g :: gs).reverse
    have hrev2 : (g :: (gs ++ [[]])).reverse = [] :: (g :: gs).reverse := by simp
    rw [hrev2, stripEmpties, if_pos rfl]

theorem stripPath_append_empty (l : List (List Char)) :
    stripPath (l ++ [[]]) = stripPath l := by
  rw [stripPath_def, stripPath_def]
  have h1 : (l ++ [[]]).reverse = [] :: l.reverse := by simp
  rw [h1, stripEmpties, if_pos rfl]

theorem stripPath_ok_of_has_nonempty {l : List (List Char)} {g0 : List Char}
    (hg : g0 ∈ l) (hne : g0 ≠ []) : ∃ r, stripPath l = Except.ok r := by
  obtain ⟨r, hr⟩ := stripEmpties_ok_of_mem (List.mem_reverse.mpr hg) hne
  obtain ⟨g, gs, rfl, hgne⟩ := stripEmpties_ok_shape hr
  obtain ⟨r2, hr2⟩ := stripEmpties_ok_of_mem (l := (g :: gs).reverse) (g := g)
    (by simp) hgne
  refine ⟨r2, ?_⟩
  rw [stripPath_def, hr]
  exact hr2

theorem stripPath_error_of_all_empty {l : List (List Char)}
    (h : ∀ g ∈ l, g = []) : stripPath l = Except.error PyError.indexError := by
  rw [stripPath_def,
    stripEmpties_error_of_all_empty fun g hg => h g (List.mem_reverse.mp hg)]

/-- C4 (amended): for every path containing at least one non-separator
character, `Folder.idOf` and `Folder.subfolder` return without raising (an
`Option`, with `none` meaning absence for an unresolved path); a path that
is empty or consists of `'/'` only raises `IndexError`; and adding a
leading or trailing `'/'` to any path never changes the result of either
lookup. -/
theorem c4_lookup_total_and_slash_insensitive :
    (∀ (f : Folder) (p : List Char), (∃ c ∈ p, c ≠ '/') →
      (∃ r, idOf f p = Except.ok r) ∧ ∃ r, subfolder f p = Except.ok r)
    ∧ (∀ (f : Folder) (p : List Char), (∀ c ∈ p, c = '/') →
      idOf f p = Except.error PyError.indexError
      ∧ subfolder f p = Except.error PyError.indexError)
    ∧ ∀ (f : Folder) (p : List Char),
      idOf f ('/' :: p) = idOf f p ∧ idOf f (p ++ ['/']) = idOf f p
      ∧ subfolder f ('/' :: p) = subfolder f p
      ∧ subfolder f (p ++ ['/']) = subfolder f p := by
  refine ⟨?_, ?_, ?_⟩
  · rintro f p ⟨c, hc, hcs⟩
    obtain ⟨g, hgmem, hgne⟩ := splitSlash_has_nonempty hc hcs
    obtain ⟨r, hr⟩ := stripPath_ok_of_has_nonempty hgmem hgne
    exact ⟨⟨findId r f, by rw [idOf_def, hr]⟩,
      ⟨findSubfolder r f, by rw [subfolder_def, hr]⟩⟩
  · intro f p hall
    have h := stripPath_error_of_all_empty (splitSlash_all_empty hall)
    exact ⟨by rw [idOf_def, h], by rw [subfolder_def, h]⟩
  · intro f p
    have h1 : stripPath (splitSlash ('/' :: p)) = stripPath (splitSlash p) := by
      rw [splitSlash_cons_slash, stripPath_cons_empty]
    have h2 : stripPath (splitSlash (p ++ ['/'])) = stripPath (splitSlash p) := by
      rw [splitSlash_append_slash, stripPath_append_empty]
    exact ⟨by rw [idOf_def, idOf_def, h1], by rw [idOf_def, idOf_def, h2],
      by rw [subfolder_def, subfolder_def, h1],
      by rw [subfolder_def, subfolder_def, h2]⟩

/-- C4, witness: the one-character path `a` resolves through `idOf` without
raising, by the theorem applied at that concrete folder and path. -/
theorem c4_witness : ∃ r, idOf (Folder.mk [] [['a']] 0) ['a'] = Except.ok r :=
  ((c4_lookup_total_and_slash_insensitive.1 (Folder.mk [] [['a']] 0) ['a'])
    ⟨'a', by simp, by decide⟩).1

/-! ### ROM decode lemmas (C5, C6, C7, C9) -/

theorem getD_replicate_zero : ∀ k i : Nat, (List.replicate k (0 : Nat)).getD i 0 = 0
  | 0, _ => rfl
  | _ + 1, 0 => rfl
  | k + 1, i + 1 => getD_replicate_zero k i

theorem initFromData_ok_fields {data : List Nat} {rom : Rom}
    (h : initFromData data = Except.ok rom) :
    ∃ f, rom = buildRom (padTo200 data) f := by
  unfold initFromData at h
  split at h
  · cases h
  · cases h
    exact ⟨_, rfl⟩

/-- C5 (amended): a buffer shorter than 0x200 bytes is zero-padded to
exactly 0x200 bytes before any header field is read, so every byte (hence
every header field) lying beyond the original buffer length reads as zero;
and decoding such a buffer does not fail provided the FNT region its padded
header declares is empty (a non-empty malformed FNT region can still make
`load` raise, per the counterexample). -/
theorem c5_truncation_tolerance (data : List Nat) (hlen : data.length < 0x200)
    (hfnt : fntRegion (padTo200 data) = []) :
    (padTo200 data).length = 0x200
    ∧ (∀ i, data.length ≤ i → (padTo200 data).getD i 0 = 0)
    ∧ ∃ rom, initFromData data = Except.ok rom := by
  refine ⟨?_, ?_, ?_⟩
  · rw [padTo200, if_pos hlen]
    simp
    omega
  · intro i hi
    rw [padTo200, if_pos hlen, List.getD_append_right _ _ _ _ hi]
    exact getD_replicate_zero _ _
  · refine ⟨buildRom (padTo200 data) (Folder.mk [] [] 0), ?_⟩
    unfold initFromData
    rw [hfnt]
    rfl

set_option maxRecDepth 4000 in
/-- C5, witness: the all-zero buffer of length 0x100 satisfies both
hypotheses and decodes successfully, by the theorem at that input. -/
theorem c5_truncation_tolerance_witness :
    (List.replicate 0x100 (0 : Nat)).length < 0x200
    ∧ fntRegion (padTo200 (List.replicate 0x100 (0 : Nat))) = []
    ∧ ∃ rom, initFromData (List.replicate 0x100 (0 : Nat)) = Except.ok rom :=
  ⟨by decide, by rfl,
    (c5_truncation_tolerance (List.replicate 0x100 0) (by decide) (by rfl)).2.2⟩

/-- C6: the decoded `rsaSignature` agrees with the claim's two-step
resolution heuristic (`rsaSignatureSpec`), both as the standalone read and
as the field of every successfully decoded ROM. -/
theorem c6_rsa_signature_resolution :
    (∀ d : List Nat, rsaSignatureOf d = rsaSignatureSpec d)
    ∧ ∀ (data : List Nat) (rom : Rom), initFromData data = Except.ok rom →
        rom.rsaSignature = rsaSignatureSpec (padTo200 data) := by
  have key : ∀ d : List Nat, rsaSignatureOf d = rsaSignatureSpec d := by
    intro d
    simp only [rsaSignatureOf, rsaSignatureSpec]
    split_ifs <;> first | rfl | omega
  refine ⟨key, fun data rom h => ?_⟩
  obtain ⟨f, rfl⟩ := initFromData_ok_fields h
  exact key _

/-- C6, witness: a buffer long enough to carry a nonzero pointer at offset
0x1000 resolves the signature there, by the theorem at that input. -/
theorem c6_rsa_signature_resolution_witness :
    rsaSignatureOf (List.replicate 0x1000 (0 : Nat) ++ [0x02, 0x10, 0, 0] ++ [7, 7])
      = rsaSignatureSpec (List.replicate 0x1000 (0 : Nat) ++ [0x02, 0x10, 0, 0] ++ [7, 7]) :=
  c6_rsa_signature_resolution.1 _

theorem pySlice_append_left (pre x : List Nat) (k : Nat) :
    pySlice (pre ++ x) pre.length (pre.length + k) = x.take k := by
  rw [pySlice, List.drop_left]
  congr 1
  omega

theorem scanPostData_step {r : List Nat} (pre tail : List Nat)
    (hlen : r.length = 12) (hmagic : r.take 4 = postDataMagic) :
    scanPostData (pre ++ (r ++ tail)) pre.length
      = r ++ scanPostData (pre ++ (r ++ tail)) (pre.length + 12) := by
  rw [scanPostData]
  have h4 : pySlice (pre ++ (r ++ tail)) pre.length (pre.length + 4) = postDataMagic := by
    rw [pySlice_append_left, List.take_append_eq_append_take]
    have h0 : 4 - r.length = 0 := by omega
    rw [h0, List.take_zero, List.append_nil, hmagic]
  rw [dif_pos h4]
  congr 1
  rw [pySlice_append_left, List.take_append_eq_append_take]
  have h0 : 12 - r.length = 0 := by omega
  rw [h0, List.take_zero, List.append_nil, ← hlen, List.take_length]

theorem scanPostData_stop (pre rest : List Nat) (h : rest.take 4 ≠ postDataMagic) :
    scanPostData (pre ++ rest) pre.length = [] := by
  rw [scanPostData, dif_neg (by rw [pySlice_append_left]; exact h)]

theorem scanPostData_at_end (d : List Nat) : scanPostData d d.length = [] := by
  rw [scanPostData, dif_neg ?_]
  rw [pySlice, List.drop_length]
  simp [postDataMagic]

/-- C7: the post-ARM9 scan consumes exactly one 12-byte record per
occurrence of the 4-byte magic at the cursor and stops at the first
non-match: two consecutive magic-prefixed records followed by non-matching
bytes yield exactly those two records, a scan starting at buffer end yields
nothing, and the decoded `arm9PostData` is this scan started immediately
after the ARM9 region. -/
theorem c7_post_arm9_scan :
    (∀ pre r1 r2 rest : List Nat,
      r1.length = 12 → r2.length = 12 →
      r1.take 4 = postDataMagic → r2.take 4 = postDataMagic →
      rest.take 4 ≠ postDataMagic →
      scanPostData (pre ++ (r1 ++ (r2 ++ rest))) pre.length = r1 ++ r2)
    ∧ (∀ d : List Nat, scanPostData d d.length = [])
    ∧ ∀ (data : List Nat) (rom : Rom), initFromData data = Except.ok rom →
        rom.arm9PostData = scanPostData (padTo200 data) (rom.arm9Offset + rom.arm9Len) := by
  refine ⟨?_, scanPostData_at_end, ?_⟩
  · intro pre r1 r2 rest h1 h2 hm1 hm2 hr
    rw [scanPostData_step pre (r2 ++ rest) h1 hm1]
    congr 1
    have hD : pre ++ (r1 ++ (r2 ++ rest)) = (pre ++ r1) ++ (r2 ++ rest) :=
      (List.append_assoc pre r1 (r2 ++ rest)).symm
    have hlen1 : pre.length + 12 = (pre ++ r1).length := by simp [h1]
    rw [hD, hlen1, scanPostData_step (pre ++ r1) rest h2 hm2]
    have hD2 : (pre ++ r1) ++ (r2 ++ rest) = ((pre ++ r1) ++ r2) ++ rest :=
      (List.append_assoc (pre ++ r1) r2 rest).symm
    have hlen2 : (pre ++ r1).length + 12 = ((pre ++ r1) ++ r2).length := by
      simp [h2] <;> omega
    rw [hD2, hlen2, scanPostData_stop _ rest hr, List.append_nil]
  · intro data rom h
    obtain ⟨f, rfl⟩ := initFromData_ok_fields h
    rfl

/-- C7, witness: the scan of a buffer holding exactly two magic-prefixed
12-byte records and one trailing non-matching byte returns exactly the two
records, by the theorem at that concrete input. -/
theorem c7_post_arm9_scan_witness :
    scanPostData ((postDataMagic ++ [1, 2, 3, 4, 5, 6, 7, 8])
        ++ ((postDataMagic ++ [9, 10, 11, 12, 13, 14, 15, 16]) ++ [0])) 0
      = (postDataMagic ++ [1, 2, 3, 4, 5, 6, 7, 8])
        ++ (postDataMagic ++ [9, 10, 11, 12, 13, 14, 15, 16]) := by
  have h := c7_post_arm9_scan.1 [] (postDataMagic ++ [1, 2, 3, 4, 5, 6, 7, 8])
    (postDataMagic ++ [9, 10, 11, 12, 13, 14, 15, 16]) [0]
    (by decide) (by decide) (by decide) (by decide) (by decide)
  simpa using h

/-- C9: in every successfully decoded ROM the icon/banner field is the
0x840-byte region at the header's icon/banner offset when that offset is
nonzero and the empty byte string when it is zero, and the debug ROM is
read at its header offset with its header length only when that offset is
nonzero, being empty otherwise. -/
theorem c9_icon_banner_debug_rom (data : List Nat) (rom : Rom)
    (h : initFromData data = Except.ok rom) :
    (u32 (padTo200 data) 0x68 ≠ 0 →
      rom.iconBanner = pySlice (padTo200 data) (u32 (padTo200 data) 0x68)
        (u32 (padTo200 data) 0x68 + ICON_BANNER_LEN))
    ∧ (u32 (padTo200 data) 0x68 = 0 → rom.iconBanner = [])
    ∧ (u32 (padTo200 data) 0x160 ≠ 0 →
      rom.debugRom = pySlice (padTo200 data) (u32 (padTo200 data) 0x160)
        (u32 (padTo200 data) 0x160 + u32 (padTo200 data) 0x164))
    ∧ (u32 (padTo200 data) 0x160 = 0 → rom.debugRom = []) := by
  obtain ⟨f, rfl⟩ := initFromData_ok_fields h
  refine ⟨fun hnz => ?_, fun hz => ?_, fun hnz => ?_, fun hz => ?_⟩
  · show iconBannerOf (padTo200 data) = _
    rw [iconBannerOf, if_pos hnz]
  · show iconBannerOf (padTo200 data) = _
    rw [iconBannerOf, if_neg fun hcon => hcon hz]
  · show debugRomOf (padTo200 data) = _
    rw [debugRomOf, if_pos hnz]
  · show debugRomOf (padTo200 data) = _
    rw [debugRomOf, if_neg fun hcon => hcon hz]

/-- C9, witness: the empty buffer decodes with zero icon/banner offset and
an empty icon/banner field, by the theorem at that input. -/
theorem c9_icon_banner_debug_rom_witness :
    initFromData ([] : List Nat)
      = Except.ok (buildRom (padTo200 []) (Folder.mk [] [] 0))
    ∧ (buildRom (padTo200 []) (Folder.mk [] [] 0)).iconBanner = [] :=
  ⟨rfl, (c9_icon_banner_debug_rom [] _ rfl).2.1 rfl⟩

/-! ### Path-based file accessors (C10) -/

theorem stripPath_error_eq {l : List (List Char)} {e : PyError}
    (h : stripPath l = Except.error e) : e = PyError.indexError := by
  rw [stripPath_def] at h
  split at h
  · cases h
    exact stripEmpties_error_eq ‹_›
  · exact stripEmpties_error_eq h

theorem idOf_error_eq {f : Folder} {p : List Char} {e : PyError}
    (h : idOf f p = Except.error e) : e = PyError.indexError := by
  rw [idOf_def] at h
  split at h
  · cases h
    exact stripPath_error_eq ‹_›
  · cases h

/-- C10: the path-based accessors raise `ValueError` exactly when `idOf`
returns `None` for the path (an `idOf` that itself raises propagates its
`IndexError` instead, and an unresolvable path never gives `ValueError`
from any other source); when the path resolves to an in-range ID `fid`,
`getFileByName` returns `files[fid]` and `setFileByName` replaces exactly
`files[fid]`, leaving the filename tree and every other ROM field
unchanged. -/
theorem c10_get_set_file_by_name (rom : Rom) (path : List Char) (newData : List Nat) :
    (getFileByName rom path = Except.error PyError.valueError ↔
      idOf rom.filenames path = Except.ok none)
    ∧ (setFileByName rom path newData = Except.error PyError.valueError ↔
      idOf rom.filenames path = Except.ok none)
    ∧ ∀ fid, idOf rom.filenames path = Except.ok (some fid) →
      fid < rom.files.length →
      getFileByName rom path = Except.ok (rom.files.getD fid [])
      ∧ setFileByName rom path newData =
          Except.ok { rom with files := rom.files.set fid newData } := by
  rcases hid : idOf rom.filenames path with e | o
  · have he := idOf_error_eq hid
    subst he
    simp only [getFileByName, setFileByName, hid]
    refine ⟨by simp, by simp, ?_⟩
    intro fid hfid
    simp at hfid
  · cases o with
    | none =>
      simp only [getFileByName, setFileByName, hid]
      refine ⟨by simp, by simp, ?_⟩
      intro fid hfid
      simp at hfid
    | some fid0 =>
      simp only [getFileByName, setFileByName, hid]
      refine ⟨?_, ?_, ?_⟩
      · constructor
        · intro hcon
          exfalso
          rw [pyIndex] at hcon
          rcases hx : rom.files.get? fid0 with _ | x <;> rw [hx] at hcon <;> cases hcon
        · intro hcon
          simp at hcon
      · constructor
        · intro hcon
          by_cases hlt : fid0 < rom.files.length
          · rw [if_pos hlt] at hcon
            cases hcon
          · rw [if_neg hlt] at hcon
            cases hcon
        · intro hcon
          simp at hcon
      · intro fid hfid hlt
        simp only [Except.ok.injEq, Option.some.injEq] at hfid
        subst hfid
        refine ⟨?_, ?_⟩
        · rw [pyIndex]
          rcases hx : rom.files.get? fid0 with _ | x
          · exact absurd (List.get?_eq_none.mp hx) (by omega)
          · rw [List.getD_eq_getD_get?, hx]
            rfl
        · rw [if_pos hlt]

/-! ### FAT decode lemmas (C8) -/

theorem fatPairs_mem {fat : List Nat} :
    ∀ {k i : Nat} {x : Nat × Nat}, x ∈ fatPairs fat k i ↔
      ∃ j, i ≤ j ∧ j < i + k ∧ x = (fatStart fat j, j) := by
  intro k
  induction k with
  | zero =>
    intro i x
    simp only [fatPairs, List.not_mem_nil, false_iff]
    rintro ⟨j, h1, h2, _⟩
    omega
  | succ k ih =>
    intro i x
    rw [fatPairs]
    simp only [List.mem_cons, ih]
    constructor
    · rintro (rfl | ⟨j, hj1, hj2, rfl⟩)
      · exact ⟨i, le_refl i, by omega, rfl⟩
      · exact ⟨j, by omega, by omega, rfl⟩
    · rintro ⟨j, hj1, hj2, rfl⟩
      by_cases hji : j = i
      · subst hji
        exact Or.inl rfl
      · exact Or.inr ⟨j, by omega, by omega, rfl⟩

theorem fatPairs_ids {fat : List Nat} :
    ∀ k i, (fatPairs fat k i).map Prod.snd = List.range' i k
  | 0, _ => rfl
  | k + 1, i => by
    rw [fatPairs, List.range'_succ]
    simp only [List.map_cons]
    rw [fatPairs_ids k (i + 1)]

theorem offset2IdAux_append {fat : List Nat} :
    ∀ (k i : Nat) (d : List (Nat × Nat)),
      (∀ j, i ≤ j → j < i + k → fatStart fat j ∉ d.map Prod.fst) →
      (∀ j1 j2, i ≤ j1 → j1 < j2 → j2 < i + k → fatStart fat j1 ≠ fatStart fat j2) →
      offset2IdAux fat k i d = d ++ fatPairs fat k i
  | 0, i, d, _, _ => by simp [offset2IdAux, fatPairs]
  | k + 1, i, d, hnotin, hdist => by
    rw [offset2IdAux, fatPairs, dictInsert, if_neg (hnotin i (le_refl i) (by omega)),
      offset2IdAux_append k (i + 1) (d ++ [(fatStart fat i, i)]) ?_ ?_,
      List.append_assoc]
    · rfl
    · intro j hj1 hj2
      rw [List.map_append, List.mem_append]
      rintro (hin | hin)
      · exact hnotin j (by omega) (by omega) hin
      · have heq : fatStart fat j = fatStart fat i := by simpa using hin
        exact hdist i j (le_refl i) (by omega) (by omega) heq.symm
    · intro j1 j2 h1 h2 h3
      exact hdist j1 j2 (by omega) h2 (by omega)

theorem offset2IdOf_eq {fat : List Nat}
    (hdist : ∀ j1 j2, j1 < j2 → j2 < fatEntryCount fat →
      fatStart fat j1 ≠ fatStart fat j2) :
    offset2IdOf fat = fatPairs fat (fatEntryCount fat) 0 := by
  rw [offset2IdOf,
    offset2IdAux_append (fatEntryCount fat) 0 [] (by simp) ?_, List.nil_append]
  intro j1 j2 h1 h2 h3
  exact hdist j1 j2 h2 (by omega)

theorem dictGet_cons_ne {ps : List (Nat × Nat)} {a : Nat × Nat} {k : Nat}
    (h : a.1 ≠ k) : dictGet (a :: ps) k = dictGet ps k := by
  rw [dictGet, dictGet, List.find?_cons_of_neg _ (by simp [h])]

theorem dictGet_cons_eq {ps : List (Nat × Nat)} {k v : Nat} :
    dictGet ((k, v) :: ps) k = v := by
  rw [dictGet, List.find?_cons_of_pos _ (by simp)]
  rfl

theorem dictGet_fatPairs {fat : List Nat} :
    ∀ k i j, i ≤ j → j < i + k →
      (∀ j1 j2, i ≤ j1 → j1 < j2 → j2 < i + k → fatStart fat j1 ≠ fatStart fat j2) →
      dictGet (fatPairs fat k i) (fatStart fat j) = j
  | 0, _, _, h1, h2, _ => by omega
  | k + 1, i, j, h1, h2, hdist => by
    rw [fatPairs]
    by_cases hji : j = i
    · subst hji
      exact dictGet_cons_eq
    · rw [dictGet_cons_ne (hdist i j (le_refl i) (by omega) (by omega))]
      exact dictGet_fatPairs k (i + 1) j (by omega) (by omega)
        (fun j1 j2 a b c => hdist j1 j2 (by omega) b (by omega))

/-- C8: under pairwise-distinct start offsets, FAT decode gives the file at
record index `i` (hence file ID `i`) the half-open byte range
`[startOffset, endOffset)` of the ROM buffer, and `sortedFileIds` is a
permutation of all file IDs arranged by ascending start offset. -/
theorem c8_fat_decode (data fat : List Nat)
    (hdist : ∀ j1 j2, j1 < j2 → j2 < fatEntryCount fat →
      fatStart fat j1 ≠ fatStart fat j2) :
    (∀ i, i < fatEntryCount fat →
      (filesOf data fat).get? i = some (pySlice data (fatStart fat i) (fatEnd fat i)))
    ∧ (sortedFileIdsOf fat).Perm (List.range (fatEntryCount fat))
    ∧ (sortedFileIdsOf fat).Pairwise fun a b => fatStart fat a ≤ fatStart fat b := by
  have hpairs := offset2IdOf_eq hdist
  have hget : ∀ j, j < fatEntryCount fat →
      dictGet (fatPairs fat (fatEntryCount fat) 0) (fatStart fat j) = j := by
    intro j hj
    exact dictGet_fatPairs (fatEntryCount fat) 0 j (by omega) (by omega)
      (fun j1 j2 a b c => hdist j1 j2 b (by omega))
  have hkeymem : ∀ a, a ∈ (fatPairs fat (fatEntryCount fat) 0).map Prod.fst →
      ∃ j, j < fatEntryCount fat ∧ a = fatStart fat j := by
    intro a ha
    obtain ⟨x, hx, hxa⟩ := List.mem_map.mp ha
    obtain ⟨j, hj0, hjn, rfl⟩ := fatPairs_mem.mp hx
    exact ⟨j, by omega, hxa.symm⟩
  refine ⟨?_, ?_, ?_⟩
  · intro i hi
    rw [filesOf, List.get?_map, List.get?_range hi]
    rfl
  · rw [sortedFileIdsOf, hpairs]
    have hmap := (List.perm_insertionSort (· ≤ ·)
      ((fatPairs fat (fatEntryCount fat) 0).map Prod.fst)).map
      (dictGet (fatPairs fat (fatEntryCount fat) 0))
    have hkeys : ((fatPairs fat (fatEntryCount fat) 0).map Prod.fst).map
        (dictGet (fatPairs fat (fatEntryCount fat) 0))
        = List.range (fatEntryCount fat) := by
      rw [List.map_map]
      have hcong : ∀ x ∈ fatPairs fat (fatEntryCount fat) 0,
          (dictGet (fatPairs fat (fatEntryCount fat) 0) ∘ Prod.fst) x = Prod.snd x := by
        intro x hx
        obtain ⟨j, hj0, hjn, rfl⟩ := fatPairs_mem.mp hx
        exact hget j (by omega)
      rw [List.map_congr_left hcong, fatPairs_ids, ← List.range_eq_range']
    rw [← hkeys]
    exact hmap
  · rw [sortedFileIdsOf, hpairs, List.pairwise_map]
    have hsorted := List.sorted_insertionSort (· ≤ ·)
      ((fatPairs fat (fatEntryCount fat) 0).map Prod.fst)
    refine List.Pairwise.imp_of_mem ?_ hsorted
    intro a b ha hb hab
    have hamem := (List.perm_insertionSort (· ≤ ·) _).mem_iff.mp ha
    have hbmem := (List.perm_insertionSort (· ≤ ·) _).mem_iff.mp hb
    obtain ⟨j1, hj1, rfl⟩ := hkeymem a hamem
    obtain ⟨j2, hj2, rfl⟩ := hkeymem b hbmem
    rw [hget j1 hj1, hget j2 hj2]
    exact hab

/-- C8, witness: the FAT with start offsets 100, 50, 200 has distinct
starts, its ID order by ascending start offset is a permutation of all IDs
(by the theorem at that input), and it is concretely `[1, 0, 2]`. -/
theorem c8_fat_decode_witness :
    (∀ j1 j2, j1 < j2 → j2 < fatEntryCount sampleFat →
      fatStart sampleFat j1 ≠ fatStart sampleFat j2)
    ∧ (sortedFileIdsOf sampleFat).Perm (List.range (fatEntryCount sampleFat))
    ∧ sortedFileIdsOf sampleFat = [1, 0, 2] := by
  have hdist : ∀ j1 j2, j1 < j2 → j2 < fatEntryCount sampleFat →
      fatStart sampleFat j1 ≠ fatStart sampleFat j2 := by
    intro j1 j2 h1 h2
    have h2' : j2 < 3 := h2
    interval_cases j2 <;> interval_cases j1 <;> decide
  exact ⟨hdist, (c8_fat_decode [] sampleFat hdist).2.1, by rfl⟩

/-- C10, witness: on a ROM whose tree holds the single file `a` with ID 0,
`getFileByName` returns its contents and `setFileByName` replaces exactly
that entry, by the theorem at that concrete input. -/
theorem c10_get_set_file_by_name_witness :
    getFileByName sampleRom ['a'] = Except.ok [1, 2, 3]
    ∧ setFileByName sampleRom ['a'] [9] =
        Except.ok { sampleRom with files := [[9]] } := by
  have h := (c10_get_set_file_by_name sampleRom ['a'] [9]).2.2 0 (by rfl) (by decide)
  exact ⟨h.1, h.2⟩
